import Mathlib

/-!
Shallow embedding of the Cluster State Controller from
`src/cpp/log/cluster_state_controller-inl.h` (certificate-transparency).

Machine integers of the source (`int64_t` tree sizes and timestamps, `int`
node counts, `uint16_t` ports) are modelled as `Nat`; the source `CHECK`s
non-negativity of every quantity it compares, so no overflow or sign
behaviour is observable in the modelled paths.  The `double`
`minimum_serving_fraction` is modelled as `ℚ`.  Fatal `CHECK` failures are
modelled as `Except.error ()`; external collaborators (database lookup
results, database write success, `IsMaster()`) are explicit inputs.
-/

/-- `ct::SignedTreeHead` protobuf message (the fields the controller reads).
A C++ default-constructed message has all fields zero / empty. -/
structure Sth where
  version : Nat
  keyId : String
  timestamp : Nat
  treeSize : Nat
  rootHash : String
deriving DecidableEq, Repr, Inhabited

/-- The value of a default-constructed `ct::SignedTreeHead` (as produced by
`std::map::operator[]` on a missing key in `CalculateServingSTH`). -/
def defaultSth : Sth := ⟨0, "", 0, 0, ""⟩

/-- `ct::ClusterNodeState` protobuf message (fields the controller reads):
hostname, log port, and the optional newest STH of the node. -/
structure ClusterNodeState where
  hostname : String
  logPort : Nat
  newestSth : Option Sth
deriving DecidableEq, Repr, Inhabited

/-- `ct::ClusterConfig`: `minimum_serving_nodes` (int) and
`minimum_serving_fraction` (double, modelled as `ℚ`). -/
structure ClusterConfig where
  minimumServingNodes : Nat
  minimumServingFraction : ℚ
deriving DecidableEq, Repr, Inhabited

/-- A watch-delivered `Update<T>`: key, existence flag and entry
(`update.handle_.Key()`, `update.exists_`, `update.handle_.Entry()`). -/
structure Update (α : Type) where
  key : String
  exists_ : Bool
  entry : α
deriving DecidableEq, Repr

/-- The URI the `AsyncLogClient` is bound to:
`"http://" + hostname + ":" + to_string(log_port)`. -/
def mkClientUri (st : ClusterNodeState) : String :=
  "http://" ++ st.hostname ++ ":" ++ toString st.logPort

/-- `BuildAsyncLogClient`: `CHECK`s a non-empty hostname and a port in
`(0, UINT16_MAX]`, then builds a client bound to the node's endpoint.
We model the client by the URI it is bound to. -/
def buildAsyncLogClient (st : ClusterNodeState) : Except Unit String :=
  if st.hostname = "" then .error ()
  else if st.logPort = 0 then .error ()
  else if 65535 < st.logPort then .error ()
  else .ok (mkClientUri st)

/-- `ClusterStateController::ClusterPeer`: the log client (kept from
construction time, never rebuilt in place) plus the latest
`ClusterNodeState`. -/
structure ClusterPeer where
  clientUri : String
  state : ClusterNodeState
deriving DecidableEq, Repr

/-- `ClusterPeer::GetHostPort`. -/
def ClusterPeer.getHostPort (p : ClusterPeer) : String × Nat :=
  (p.state.hostname, p.state.logPort)

/-- `ClusterPeer::UpdateClusterNodeState`: `CHECK`s that hostname and port
are unchanged, then replaces the stored state (the client is untouched). -/
def ClusterPeer.updateClusterNodeState (p : ClusterPeer)
    (newState : ClusterNodeState) : Except Unit ClusterPeer :=
  if p.state.hostname = newState.hostname ∧ p.state.logPort = newState.logPort then
    .ok ⟨p.clientUri, newState⟩
  else .error ()

/-- `all_peers_`: a `std::map<string, shared_ptr<ClusterPeer>>`, modelled as
a key-sorted association list. -/
abbrev PeerMap : Type := List (String × ClusterPeer)

/-- Lookup in the peer map (`all_peers_.find(node_id)`). -/
def lookupPeer : PeerMap → String → Option ClusterPeer
  | [], _ => none
  | (k, p) :: rest, id => if k = id then some p else lookupPeer rest id

/-- `all_peers_.erase(node_id)` (a `std::map` holds at most one entry per
key; we remove every entry with the key). -/
def erasePeer (ps : PeerMap) (id : String) : PeerMap :=
  ps.filter (fun q => decide (q.1 ≠ id))

/-- `all_peers_.emplace(node_id, peer)`: insert in key order; a `std::map`
emplace is a no-op when the key is already present. -/
def insertPeer (id : String) (p : ClusterPeer) : PeerMap → PeerMap
  | [] => [(id, p)]
  | (k, q) :: rest =>
    if id < k then (id, p) :: (k, q) :: rest
    else if id = k then (k, q) :: rest
    else (k, q) :: insertPeer id p rest

/-- Replace the value stored under `id` (in-place mutation of the mapped
`ClusterPeer` through the iterator). -/
def updatePeerState (ps : PeerMap) (id : String) (p : ClusterPeer) : PeerMap :=
  ps.map (fun q => if q.1 = id then (q.1, p) else q)

/-- Number of entries of the peer map holding key `id`. -/
def countKey (ps : PeerMap) (id : String) : Nat :=
  ps.countP (fun q => decide (q.1 = id))

/-- One iteration of the update loop of
`ClusterStateController::OnClusterStateUpdated`: on `exists_`, evict the
peer when its endpoint changed, then either update the surviving peer in
place or construct a fresh one; on a deletion, `CHECK` that exactly one
entry was erased. -/
def applyOneUpdate (u : Update ClusterNodeState) (ps : PeerMap) :
    Except Unit PeerMap :=
  if u.exists_ then
    match lookupPeer ps u.key with
    | some p =>
      if p.getHostPort ≠ (u.entry.hostname, u.entry.logPort) then
        match buildAsyncLogClient u.entry with
        | .error _ => .error ()
        | .ok uri => .ok (insertPeer u.key ⟨uri, u.entry⟩ (erasePeer ps u.key))
      else
        match p.updateClusterNodeState u.entry with
        | .error _ => .error ()
        | .ok p2 => .ok (updatePeerState ps u.key p2)
    | none =>
      match buildAsyncLogClient u.entry with
      | .error _ => .error ()
      | .ok uri => .ok (insertPeer u.key ⟨uri, u.entry⟩ ps)
  else
    if lookupPeer ps u.key = none then .error ()
    else .ok (erasePeer ps u.key)

/-- The whole update loop of `OnClusterStateUpdated` over the batch. -/
def applyPeerUpdates : List (Update ClusterNodeState) → PeerMap →
    Except Unit PeerMap
  | [], ps => .ok ps
  | u :: rest, ps =>
    match applyOneUpdate u ps with
    | .error _ => .error ()
    | .ok ps2 => applyPeerUpdates rest ps2

/-- The newest STHs advertised by the peers, in map iteration order
(peers without an STH are skipped, as in the calculator's first loop). -/
def sthsOf (ps : PeerMap) : List Sth :=
  ps.filterMap (fun q => q.2.state.newestSth)

/-- Number of advertised STHs of tree size exactly `sz`
(`num_nodes_by_sth_size[sz]`). -/
def countEq (sths : List Sth) (sz : Nat) : Nat :=
  sths.countP (fun x => decide (x.treeSize = sz))

/-- Number of advertised STHs of tree size at least `sz`. -/
def countGE (sths : List Sth) (sz : Nat) : Nat :=
  sths.countP (fun x => decide (sz ≤ x.treeSize))

/-- Number of advertised STHs of tree size strictly greater than `sz`. -/
def countGT (sths : List Sth) (sz : Nat) : Nat :=
  sths.countP (fun x => decide (sz < x.treeSize))

/-- Insert a size into a strictly-descending duplicate-free list of sizes
(the key set of the `std::map`s, iterated via `rbegin`). -/
def insertDesc (x : Nat) : List Nat → List Nat
  | [] => [x]
  | y :: ys =>
    if y < x then x :: y :: ys
    else if x = y then y :: ys
    else y :: insertDesc x ys

/-- The distinct advertised tree sizes, largest first (reverse iteration
order of `num_nodes_by_sth_size`). -/
def bucketSizes : List Sth → List Nat
  | [] => []
  | x :: rest => insertDesc x.treeSize (bucketSizes rest)

/-- `sth_by_size[sz]`: fold the peers in iteration order, starting from the
default-constructed STH the map inserts on first access, keeping the entry
whose timestamp is strictly larger than the current one. -/
def repAt (sths : List Sth) (sz : Nat) : Sth :=
  sths.foldl
    (fun acc x =>
      if x.treeSize = sz ∧ acc.timestamp < x.timestamp then x else acc)
    defaultSth

/-- The viability filter of `CalculateServingSTH`: a candidate is discarded
when an actual serving STH exists and the candidate's timestamp is not
strictly newer. -/
def discardCandidate (actual : Option Sth) (rep : Sth) : Bool :=
  match actual with
  | some a => decide (rep.timestamp ≤ a.timestamp)
  | none => false

/-- The descending bucket loop of `CalculateServingSTH`: walk the buckets
from the largest tree size while the size is at least `cur`
(`current_tree_size`), accumulating `seen` (`num_nodes_seen`); select the
bucket's representative STH once the serving fraction and node-count
thresholds are met and the candidate survives the timestamp filter. -/
def calcLoop (cfg : ClusterConfig) (actual : Option Sth) (cur n : Nat) :
    List (Nat × Nat × Sth) → Nat → Option Sth
  | [], _ => none
  | (sz, cnt, rep) :: rest, seen =>
    if sz < cur then none
    else
      if cfg.minimumServingFraction ≤ ((seen + cnt : Nat) : ℚ) / (n : ℚ) ∧
          cfg.minimumServingNodes ≤ seen + cnt then
        if discardCandidate actual rep then
          calcLoop cfg actual cur n rest (seen + cnt)
        else some rep
      else calcLoop cfg actual cur n rest (seen + cnt)

/-- `current_tree_size`: the tree size of the current
`calculated_serving_sth_`, or `0` when there is none. -/
def currentTreeSize (calculated : Option Sth) : Nat :=
  match calculated with
  | some c => c.treeSize
  | none => 0

/-- `ClusterStateController::CalculateServingSTH` as a pure function of the
peer map, the cluster config, the current calculated serving STH and the
actual serving STH.  Returns the replacement `calculated_serving_sth_` when
one is selected, `none` when the calculation fails. -/
def calculateServingSTH (peers : PeerMap) (cfg : ClusterConfig)
    (calculated actual : Option Sth) : Option Sth :=
  let sths := sthsOf peers
  let buckets :=
    (bucketSizes sths).map (fun sz => (sz, countEq sths sz, repAt sths sz))
  calcLoop cfg actual (currentTreeSize calculated) peers.length buckets 0

/-- The controller state guarded by `mutex_`: the local node state
(hostname, port, optional newest STH), the cached cluster config, the peer
map, both optional serving STHs, the publisher flags, and the (boolean)
election membership driven by `StartElection` / `StopElection`. -/
structure CtrlState where
  localHostname : String
  localLogPort : Nat
  localNewestSth : Option Sth
  clusterConfig : ClusterConfig
  allPeers : PeerMap
  calculatedServingSth : Option Sth
  actualServingSth : Option Sth
  updateRequired : Bool
  exiting : Bool
  electionRunning : Bool
deriving DecidableEq, Repr

/-- The state right after construction: empty local node state, proto
defaults for the config, no peers, no STHs, flags cleared, not in the
election. -/
def initState : CtrlState :=
  { localHostname := ""
    localLogPort := 0
    localNewestSth := none
    clusterConfig := ⟨0, 0⟩
    allPeers := []
    calculatedServingSth := none
    actualServingSth := none
    updateRequired := false
    exiting := false
    electionRunning := false }

/-- `ClusterStateController::DetermineElectionParticipation`: with no
actual serving STH, warn and leave the election state untouched; with no
local STH or a lagging one, `StopElection`; otherwise `StartElection`. -/
def determineElectionParticipation (s : CtrlState) : CtrlState :=
  match s.actualServingSth with
  | none => s
  | some a =>
    match s.localNewestSth with
    | none => { s with electionRunning := false }
    | some nst =>
      if nst.treeSize < a.treeSize then { s with electionRunning := false }
      else { s with electionRunning := true }

/-- `ClusterStateController::PushLocalNodeState`: re-evaluate election
participation, then `SetClusterNodeState` on the store (a remote call whose
failure is only logged, so it has no modelled effect). -/
def pushLocalNodeState (s : CtrlState) : CtrlState :=
  determineElectionParticipation s

/-- `ClusterStateController::NewTreeHead`: `CHECK` that the timestamp does
not regress below the current newest STH (fatal otherwise), store the STH,
and push the local node state. -/
def newTreeHead (sth : Sth) (s : CtrlState) : Except Unit CtrlState :=
  match s.localNewestSth with
  | some old =>
    if sth.timestamp < old.timestamp then .error ()
    else .ok (pushLocalNodeState { s with localNewestSth := some sth })
  | none => .ok (pushLocalNodeState { s with localNewestSth := some sth })

/-- `ClusterStateController::SetNodeHostPort`. -/
def setNodeHostPort (host : String) (port : Nat) (s : CtrlState) : CtrlState :=
  pushLocalNodeState { s with localHostname := host, localLogPort := port }

/-- The tail of `CalculateServingSTH` inside the controller: commit a
selected candidate to `calculated_serving_sth_` and, when this node is
master, raise `update_required_` and signal the publisher. -/
def doCalculateServingSTH (isMaster : Bool) (s : CtrlState) : CtrlState :=
  match calculateServingSTH s.allPeers s.clusterConfig
      s.calculatedServingSth s.actualServingSth with
  | none => s
  | some c =>
    if isMaster then
      { s with calculatedServingSth := some c, updateRequired := true }
    else { s with calculatedServingSth := some c }

/-- `ClusterStateController::OnClusterStateUpdated`: apply the batch to the
peer map (fatal checks abort), then recalculate the serving STH. -/
def onClusterStateUpdated (updates : List (Update ClusterNodeState))
    (isMaster : Bool) (s : CtrlState) : Except Unit CtrlState :=
  match applyPeerUpdates updates s.allPeers with
  | .error _ => .error ()
  | .ok ps => .ok (doCalculateServingSTH isMaster { s with allPeers := ps })

/-- `ClusterStateController::OnClusterConfigUpdated`: ignore deletions,
otherwise cache the config and recalculate. -/
def onClusterConfigUpdated (u : Update ClusterConfig) (isMaster : Bool)
    (s : CtrlState) : Except Unit CtrlState :=
  if u.exists_ then
    .ok (doCalculateServingSTH isMaster { s with clusterConfig := u.entry })
  else .ok s

/-- Outcome of the local database's `LatestTreeHead` lookup. -/
inductive LookupResult where
  | ok (sth : Sth)
  | notFound
  | err
deriving DecidableEq, Repr

/-- What one `OnServingSthUpdated` call did: the resulting controller
state, the STH passed to `WriteTreeHead` (if any), whether `LatestTreeHead`
was consulted, and whether `DetermineElectionParticipation` ran. -/
structure SthUpdateResult where
  state : CtrlState
  dbWrite : Option Sth
  dbLookedUp : Bool
  gateRan : Bool
deriving DecidableEq, Repr

/-- `ClusterStateController::OnServingSthUpdated`.  A deletion clears
`actual_serving_sth_` and re-runs the election gate; an update with
timestamp `0` is ignored outright; otherwise the update becomes
`actual_serving_sth_`, is validated against the database's latest tree
head (`CHECK`s are fatal) and written through when strictly newer or when
the database is empty, and the election gate runs.  `db` is the lookup
outcome and `writeOk` tells whether `WriteTreeHead` would return `OK`
(anything else is fatal). -/
def onServingSthUpdated (u : Update Sth) (db : LookupResult) (writeOk : Bool)
    (s : CtrlState) : Except Unit SthUpdateResult :=
  if u.exists_ then
    if u.entry.timestamp = 0 then .ok ⟨s, none, false, false⟩
    else
      let s1 := { s with actualServingSth := some u.entry }
      match db with
      | .ok dbSth =>
        if u.entry.keyId ≠ dbSth.keyId then .error ()
        else if u.entry.version ≠ dbSth.version then .error ()
        else if dbSth.timestamp = u.entry.timestamp then
          if u.entry.treeSize ≠ dbSth.treeSize then .error ()
          else if u.entry.rootHash ≠ dbSth.rootHash then .error ()
          else .ok ⟨determineElectionParticipation s1, none, true, true⟩
        else
          if ¬ dbSth.timestamp < u.entry.timestamp then .error ()
          else if ¬ dbSth.treeSize ≤ u.entry.treeSize then .error ()
          else if writeOk then
            .ok ⟨determineElectionParticipation s1, some u.entry, true, true⟩
          else .error ()
      | .notFound =>
        if writeOk then
          .ok ⟨determineElectionParticipation s1, some u.entry, true, true⟩
        else .error ()
      | .err => .error ()
  else
    .ok ⟨determineElectionParticipation { s with actualServingSth := none },
         none, false, true⟩

/-- One wake-up of `ClusterStateController::ClusterServingSTHUpdater` (the
publisher worker): the thread leaves the wait only when `update_required_`
or `exiting_` holds; on `exiting_` it returns, otherwise it `CHECK`s a
calculated STH exists (fatal if not), snapshots it, clears
`update_required_`, drops the lock, and publishes the snapshot via
`store.SetServingSTH` exactly when `IsMaster()`.  The second component is
the STH handed to the store, if any. -/
def clusterServingSTHUpdater (isMaster : Bool) (s : CtrlState) :
    Except Unit (CtrlState × Option Sth) :=
  if s.exiting then .ok (s, none)
  else if s.updateRequired then
    match s.calculatedServingSth with
    | none => .error ()
    | some c =>
      .ok ({ s with updateRequired := false },
           if isMaster then some c else none)
  else .ok (s, none)

/-- One controller operation together with the external inputs it consumes
(the watch payloads, the database lookup and write outcomes, and the
election primitive's `IsMaster()` answer at the moments it is consulted). -/
inductive OpInput where
  | newTreeHead (sth : Sth)
  | setNodeHostPort (host : String) (port : Nat)
  | clusterStateUpdated (updates : List (Update ClusterNodeState)) (isMaster : Bool)
  | clusterConfigUpdated (u : Update ClusterConfig) (isMaster : Bool)
  | servingSthUpdated (u : Update Sth) (db : LookupResult) (writeOk : Bool)
  | publisherWake (isMaster : Bool)
  | beginExit
deriving DecidableEq, Repr

/-- Dispatch one operation of the controller.  `Except.error` is a fatal
`CHECK` failure (the process aborts, so there is no successor state). -/
def controllerStep : OpInput → CtrlState → Except Unit CtrlState
  | .newTreeHead sth, s => newTreeHead sth s
  | .setNodeHostPort host port, s => .ok (setNodeHostPort host port s)
  | .clusterStateUpdated updates isMaster, s =>
    onClusterStateUpdated updates isMaster s
  | .clusterConfigUpdated u isMaster, s => onClusterConfigUpdated u isMaster s
  | .servingSthUpdated u db writeOk, s =>
    match onServingSthUpdated u db writeOk s with
    | .error _ => .error ()
    | .ok r => .ok r.state
  | .publisherWake isMaster, s =>
    match clusterServingSTHUpdater isMaster s with
    | .error _ => .error ()
    | .ok (s2, _) => .ok s2
  | .beginExit, s => .ok { s with exiting := true }

/-- States of the controller reachable from construction by any
interleaving of its operations. -/
inductive Reachable : CtrlState → Prop where
  | init : Reachable initState
  | step (op : OpInput) (s s2 : CtrlState) (h : Reachable s)
      (hs : controllerStep op s = Except.ok s2) : Reachable s2


/-! Helper lemmas about the counting functions and the bucket structures. -/

theorem countGT_add_countEq (sths : List Sth) (sz : Nat) :
    countGT sths sz + countEq sths sz = countGE sths sz := by
  induction sths with
  | nil => rfl
  | cons x rest ih =>
    simp only [countGT, countEq, countGE, List.countP_cons,
      decide_eq_true_eq] at *
    split_ifs <;> omega

theorem countGE_le_countGT_of_lt (sths : List Sth) {a b : Nat} (h : b < a) :
    countGE sths a ≤ countGT sths b := by
  apply List.countP_mono_left
  intro x _ hx
  simp only [decide_eq_true_eq] at *
  omega

theorem countGE_anti (sths : List Sth) {a b : Nat} (h : a ≤ b) :
    countGE sths b ≤ countGE sths a := by
  apply List.countP_mono_left
  intro x _ hx
  simp only [decide_eq_true_eq] at *
  omega

theorem mem_insertDesc {y x : Nat} {l : List Nat} :
    y ∈ insertDesc x l → y = x ∨ y ∈ l := by
  induction l with
  | nil =>
    intro h
    simp only [insertDesc, List.mem_singleton] at h
    exact Or.inl h
  | cons z zs ih =>
    intro h
    simp only [insertDesc] at h
    by_cases h1 : z < x
    · rw [if_pos h1] at h
      rcases List.mem_cons.mp h with h2 | h2
      · exact Or.inl h2
      · exact Or.inr h2
    · rw [if_neg h1] at h
      by_cases h2 : x = z
      · rw [if_pos h2] at h
        exact Or.inr h
      · rw [if_neg h2] at h
        rcases List.mem_cons.mp h with h3 | h3
        · exact Or.inr (List.mem_cons.mpr (Or.inl h3))
        · rcases ih h3 with h4 | h4
          · exact Or.inl h4
          · exact Or.inr (List.mem_cons.mpr (Or.inr h4))

theorem insertDesc_pairwise {x : Nat} {l : List Nat}
    (h : l.Pairwise (fun a b => b < a)) :
    (insertDesc x l).Pairwise (fun a b => b < a) := by
  induction l with
  | nil => simp [insertDesc]
  | cons z zs ih =>
    rw [List.pairwise_cons] at h
    obtain ⟨hz, hzs⟩ := h
    simp only [insertDesc]
    by_cases h1 : z < x
    · rw [if_pos h1, List.pairwise_cons]
      refine ⟨?_, ?_⟩
      · intro b hb
        rcases List.mem_cons.mp hb with hb2 | hb2
        · omega
        · exact Nat.lt_trans (hz b hb2) h1
      · rw [List.pairwise_cons]
        exact ⟨hz, hzs⟩
    · rw [if_neg h1]
      by_cases h2 : x = z
      · rw [if_pos h2, List.pairwise_cons]
        exact ⟨hz, hzs⟩
      · rw [if_neg h2, List.pairwise_cons]
        refine ⟨?_, ih hzs⟩
        intro b hb
        rcases mem_insertDesc hb with hb2 | hb2
        · omega
        · exact hz b hb2

theorem bucketSizes_pairwise (sths : List Sth) :
    (bucketSizes sths).Pairwise (fun a b => b < a) := by
  induction sths with
  | nil => simp [bucketSizes]
  | cons x rest ih => exact insertDesc_pairwise ih

theorem mem_bucketSizes {sz : Nat} {sths : List Sth} :
    sz ∈ bucketSizes sths → ∃ x ∈ sths, x.treeSize = sz := by
  induction sths with
  | nil =>
    intro h
    simp [bucketSizes] at h
  | cons x rest ih =>
    intro h
    rcases mem_insertDesc h with h2 | h2
    · exact ⟨x, List.mem_cons.mpr (Or.inl rfl), h2.symm⟩
    · obtain ⟨y, hy, hy2⟩ := ih h2
      exact ⟨y, List.mem_cons.mpr (Or.inr hy), hy2⟩

theorem repAt_go_cases (sths : List Sth) (sz : Nat) :
    ∀ acc : Sth, acc.treeSize = 0 ∨ acc.treeSize = sz →
      (sths.foldl
        (fun acc x =>
          if x.treeSize = sz ∧ acc.timestamp < x.timestamp then x else acc)
        acc).treeSize = 0 ∨
      (sths.foldl
        (fun acc x =>
          if x.treeSize = sz ∧ acc.timestamp < x.timestamp then x else acc)
        acc).treeSize = sz := by
  induction sths with
  | nil =>
    intro acc h
    exact h
  | cons x rest ih =>
    intro acc h
    simp only [List.foldl_cons]
    apply ih
    split
    · rename_i hx
      exact Or.inr hx.1
    · exact h

theorem repAt_treeSize (sths : List Sth) (sz : Nat) :
    (repAt sths sz).treeSize = 0 ∨ (repAt sths sz).treeSize = sz := by
  unfold repAt
  exact repAt_go_cases sths sz defaultSth (Or.inl rfl)

/-- Soundness of the descending bucket loop: a selected candidate comes
from a bucket of size at least `cur`, and the accumulated node count at the
moment of selection meets both thresholds while staying below the number of
STHs at least as large as the bucket size. -/
theorem calcLoop_quorum (cfg : ClusterConfig) (actual : Option Sth)
    (cur n : Nat) (sths : List Sth) :
    ∀ (bs : List (Nat × Nat × Sth)) (seen : Nat) (c : Sth),
      (∀ b ∈ bs, b.2.1 = countEq sths b.1) →
      bs.Pairwise (fun a b => b.1 < a.1) →
      (∀ sz cnt rep rest, bs = (sz, cnt, rep) :: rest →
        seen ≤ countGT sths sz) →
      calcLoop cfg actual cur n bs seen = some c →
      ∃ sz cnt, (sz, cnt, c) ∈ bs ∧ cur ≤ sz ∧
        ∃ seen2 : Nat, seen2 ≤ countGE sths sz ∧
          cfg.minimumServingFraction ≤ (seen2 : ℚ) / (n : ℚ) ∧
          cfg.minimumServingNodes ≤ seen2 := by
  intro bs
  induction bs with
  | nil =>
    intro seen c _ _ _ h
    simp [calcLoop] at h
  | cons b rest ih =>
    obtain ⟨sz, cnt, rep⟩ := b
    intro seen c hcnt hpair hseen h
    simp only [calcLoop] at h
    by_cases hlt : sz < cur
    · rw [if_pos hlt] at h
      exact absurd h (by simp)
    · rw [if_neg hlt] at h
      have hseen0 : seen ≤ countGT sths sz := hseen sz cnt rep rest rfl
      have hcnt0 : cnt = countEq sths sz := hcnt (sz, cnt, rep) (List.mem_cons_self _ _)
      have hsum : seen + cnt ≤ countGE sths sz := by
        rw [← countGT_add_countEq sths sz]
        omega
      have hrest :
          ∀ sz2 cnt2 rep2 rest2, rest = (sz2, cnt2, rep2) :: rest2 →
            seen + cnt ≤ countGT sths sz2 := by
        intro sz2 cnt2 rep2 rest2 heq
        have hlt2 : sz2 < sz := by
          rw [List.pairwise_cons] at hpair
          have := hpair.1 (sz2, cnt2, rep2) (heq ▸ List.mem_cons_self _ _)
          exact this
        exact Nat.le_trans hsum (countGE_le_countGT_of_lt sths hlt2)
      have hpairrest : rest.Pairwise (fun a b => b.1 < a.1) :=
        (List.pairwise_cons.mp hpair).2
      have hcntrest : ∀ b ∈ rest, b.2.1 = countEq sths b.1 := by
        intro b hb
        exact hcnt b (List.mem_cons_of_mem _ hb)
      by_cases hq : cfg.minimumServingFraction ≤
          ((seen + cnt : Nat) : ℚ) / (n : ℚ) ∧
          cfg.minimumServingNodes ≤ seen + cnt
      · rw [if_pos hq] at h
        by_cases hd : discardCandidate actual rep = true
        · rw [if_pos hd] at h
          obtain ⟨sz2, cnt2, hmem, hcur, hrest2⟩ :=
            ih (seen + cnt) c hcntrest hpairrest hrest h
          exact ⟨sz2, cnt2, List.mem_cons_of_mem _ hmem, hcur, hrest2⟩
        · rw [if_neg hd] at h
          have hc : c = rep := by
            injection h with h2
            exact h2.symm
          subst hc
          exact ⟨sz, cnt, List.mem_cons_self _ _, Nat.le_of_not_lt hlt,
            seen + cnt, hsum, hq.1, hq.2⟩
      · rw [if_neg hq] at h
        obtain ⟨sz2, cnt2, hmem, hcur, hrest2⟩ :=
          ih (seen + cnt) c hcntrest hpairrest hrest h
        exact ⟨sz2, cnt2, List.mem_cons_of_mem _ hmem, hcur, hrest2⟩

/-- A candidate selected while an actual serving STH is present has a
strictly newer timestamp than that actual serving STH. -/
theorem calcLoop_ts_gt_actual (cfg : ClusterConfig) (a : Sth)
    (cur n : Nat) :
    ∀ (bs : List (Nat × Nat × Sth)) (seen : Nat) (c : Sth),
      calcLoop cfg (some a) cur n bs seen = some c →
      a.timestamp < c.timestamp := by
  intro bs
  induction bs with
  | nil =>
    intro seen c h
    simp [calcLoop] at h
  | cons b rest ih =>
    obtain ⟨sz, cnt, rep⟩ := b
    intro seen c h
    simp only [calcLoop] at h
    by_cases hlt : sz < cur
    · rw [if_pos hlt] at h
      exact absurd h (by simp)
    · rw [if_neg hlt] at h
      by_cases hq : cfg.minimumServingFraction ≤
          ((seen + cnt : Nat) : ℚ) / (n : ℚ) ∧
          cfg.minimumServingNodes ≤ seen + cnt
      · rw [if_pos hq] at h
        by_cases hd : discardCandidate (some a) rep = true
        · rw [if_pos hd] at h
          exact ih (seen + cnt) c h
        · rw [if_neg hd] at h
          have hc : c = rep := by
            injection h with h2
            exact h2.symm
          subst hc
          simp only [discardCandidate, decide_eq_true_eq] at hd
          omega
      · rw [if_neg hq] at h
        exact ih (seen + cnt) c h

/-- When every advertised STH has a positive timestamp and some peer
advertises size `sz`, the bucket representative for `sz` is a genuine
bucket member: its tree size is `sz` and its timestamp positive. -/
theorem repAt_go_pos (sz : Nat) :
    ∀ (sths : List Sth) (acc : Sth),
      (∀ x ∈ sths, 0 < x.timestamp) →
      (acc.timestamp = 0 ∨ (acc.treeSize = sz ∧ 0 < acc.timestamp)) →
      ((∃ x ∈ sths, x.treeSize = sz) ∨
        (acc.treeSize = sz ∧ 0 < acc.timestamp)) →
      (sths.foldl
        (fun acc x =>
          if x.treeSize = sz ∧ acc.timestamp < x.timestamp then x else acc)
        acc).treeSize = sz ∧
      0 < (sths.foldl
        (fun acc x =>
          if x.treeSize = sz ∧ acc.timestamp < x.timestamp then x else acc)
        acc).timestamp := by
  intro sths
  induction sths with
  | nil =>
    intro acc _ _ hgot
    rcases hgot with hgot | hgot
    · simp at hgot
    · exact hgot
  | cons x rest ih =>
    intro acc hpos hinv hgot
    simp only [List.foldl_cons]
    have hposx : 0 < x.timestamp := hpos x (List.mem_cons_self _ _)
    have hposrest : ∀ y ∈ rest, 0 < y.timestamp := by
      intro y hy
      exact hpos y (List.mem_cons_of_mem _ hy)
    by_cases hcond : x.treeSize = sz ∧ acc.timestamp < x.timestamp
    · rw [if_pos hcond]
      exact ih x hposrest (Or.inr ⟨hcond.1, hposx⟩)
        (Or.inr ⟨hcond.1, hposx⟩)
    · rw [if_neg hcond]
      rcases hgot with hgot | hgot
      · rcases hgot with ⟨x0, hx0mem, hx0⟩
        rcases List.mem_cons.mp hx0mem with hx0mem | hx0mem
        · subst hx0mem
          have hP : acc.treeSize = sz ∧ 0 < acc.timestamp := by
            rcases hinv with hinv | hinv
            · exfalso
              apply hcond
              exact ⟨hx0, by omega⟩
            · exact hinv
          exact ih acc hposrest (Or.inr hP) (Or.inr hP)
        · exact ih acc hposrest hinv (Or.inl ⟨x0, hx0mem, hx0⟩)
      · exact ih acc hposrest (Or.inr hgot) (Or.inr hgot)

theorem repAt_pos (sths : List Sth) (sz : Nat)
    (hpos : ∀ x ∈ sths, 0 < x.timestamp)
    (hmem : ∃ x ∈ sths, x.treeSize = sz) :
    (repAt sths sz).treeSize = sz ∧ 0 < (repAt sths sz).timestamp := by
  unfold repAt
  exact repAt_go_pos sz sths defaultSth hpos (Or.inl rfl) (Or.inl hmem)

/-- Technical bridge: a successful calculation selects a bucket size `sz`
with `c` as its representative, `sz` at least the current calculated size,
and a node count meeting both thresholds which is at most the number of
advertised STHs of size at least `sz`. -/
theorem calculate_selects (peers : PeerMap) (cfg : ClusterConfig)
    (calculated actual : Option Sth) (c : Sth)
    (h : calculateServingSTH peers cfg calculated actual = some c) :
    ∃ sz, sz ∈ bucketSizes (sthsOf peers) ∧ c = repAt (sthsOf peers) sz ∧
      currentTreeSize calculated ≤ sz ∧
      ∃ seen2 : Nat, seen2 ≤ countGE (sthsOf peers) sz ∧
        cfg.minimumServingFraction ≤ (seen2 : ℚ) / (peers.length : ℚ) ∧
        cfg.minimumServingNodes ≤ seen2 := by
  simp only [calculateServingSTH] at h
  obtain ⟨sz, cnt, hmem, hcur, hrest⟩ :=
    calcLoop_quorum cfg actual _ peers.length (sthsOf peers) _ 0 c
      (by
        intro b hb
        obtain ⟨sz0, hsz0, hb0⟩ := List.mem_map.mp hb
        rw [← hb0]
      )
      (by
        rw [List.pairwise_map]
        exact bucketSizes_pairwise (sthsOf peers)
      )
      (by
        intro sz cnt rep rest heq
        exact Nat.zero_le _
      )
      h
  obtain ⟨sz0, hsz0, hb0⟩ := List.mem_map.mp hmem
  have h1 : sz0 = sz := congrArg Prod.fst hb0
  have h2 : c = repAt (sthsOf peers) sz0 := by
    have := congrArg (fun q => q.2.2) hb0
    exact this.symm
  subst h1
  exact ⟨sz0, hsz0, h2, hcur, hrest⟩

/-- C1: if the calculator selects a candidate of tree size `s`, the number
of peers whose `newest_sth.tree_size` is at least `s` is at least
`minimum_serving_nodes` and at least `minimum_serving_fraction` times the
total peer count (peers without an STH included in the total). -/
theorem calculate_coverage (peers : PeerMap) (cfg : ClusterConfig)
    (calculated actual : Option Sth) (c : Sth)
    (h : calculateServingSTH peers cfg calculated actual = some c) :
    cfg.minimumServingNodes ≤ countGE (sthsOf peers) c.treeSize ∧
    cfg.minimumServingFraction * (peers.length : ℚ) ≤
      (countGE (sthsOf peers) c.treeSize : ℚ) := by
  obtain ⟨sz, hsz, hc, hcur, seen2, hle, hfrac, hnodes⟩ :=
    calculate_selects peers cfg calculated actual c h
  have hsize : c.treeSize ≤ sz := by
    rcases repAt_treeSize (sthsOf peers) sz with h0 | h0
    · rw [hc, h0]
      exact Nat.zero_le _
    · rw [hc, h0]
  have hmono : countGE (sthsOf peers) sz ≤ countGE (sthsOf peers) c.treeSize :=
    countGE_anti (sthsOf peers) hsize
  have htotal : seen2 ≤ countGE (sthsOf peers) c.treeSize :=
    Nat.le_trans hle hmono
  constructor
  · exact Nat.le_trans hnodes htotal
  · by_cases hn : peers.length = 0
    · rw [hn]
      push_cast
      rw [mul_zero]
      exact Nat.cast_nonneg _
    · have hn2 : (0 : ℚ) < (peers.length : ℚ) := by
        have : 0 < peers.length := Nat.pos_of_ne_zero hn
        exact_mod_cast this
      have := (le_div_iff₀ hn2).mp hfrac
      calc cfg.minimumServingFraction * (peers.length : ℚ)
          ≤ (seen2 : ℚ) := this
        _ ≤ (countGE (sthsOf peers) c.treeSize : ℚ) := by exact_mod_cast htotal

/-- C3 (amended): a candidate selected while `actual_serving_sth` is set
has a timestamp strictly greater than the actual serving STH's timestamp. -/
theorem calculate_ts_gt_actual (peers : PeerMap) (cfg : ClusterConfig)
    (calculated : Option Sth) (a c : Sth)
    (h : calculateServingSTH peers cfg calculated (some a) = some c) :
    a.timestamp < c.timestamp := by
  simp only [calculateServingSTH] at h
  exact calcLoop_ts_gt_actual cfg a _ peers.length _ 0 c h

/-- C6 (amended): when every advertised STH carries a positive timestamp,
a selected candidate's tree size is at least the current calculated
serving tree size (`0` when there is none). -/
theorem calculate_tree_size_floor (peers : PeerMap) (cfg : ClusterConfig)
    (calculated actual : Option Sth) (c : Sth)
    (hpos : ∀ x ∈ sthsOf peers, 0 < x.timestamp)
    (h : calculateServingSTH peers cfg calculated actual = some c) :
    currentTreeSize calculated ≤ c.treeSize := by
  obtain ⟨sz, hsz, hc, hcur, _⟩ :=
    calculate_selects peers cfg calculated actual c h
  have hmem := mem_bucketSizes hsz
  have := repAt_pos (sthsOf peers) sz hpos hmem
  rw [hc, this.1]
  exact hcur


/-! Concrete instances: spec scenario S1 and the inputs exhibiting the
calculator's behaviour on timestamp regressions and zero timestamps. -/

/-- Scenario S1 of the spec: four peers at sizes 10, 10, 10, 5 with
timestamps 100, 101, 102, 50. -/
def s1peers : PeerMap :=
  [("p1", ⟨"http://h1:80", ⟨"h1", 80, some ⟨0, "k", 100, 10, "a"⟩⟩⟩),
   ("p2", ⟨"http://h2:80", ⟨"h2", 80, some ⟨0, "k", 101, 10, "b"⟩⟩⟩),
   ("p3", ⟨"http://h3:80", ⟨"h3", 80, some ⟨0, "k", 102, 10, "c"⟩⟩⟩),
   ("p4", ⟨"http://h4:80", ⟨"h4", 80, some ⟨0, "k", 50, 5, "d"⟩⟩⟩)]

/-- The candidate S1 selects: the size-10 STH with timestamp 102. -/
def s1result : Sth := ⟨0, "k", 102, 10, "c"⟩

theorem calculate_coverage_witness :
    (⟨3, 3/4⟩ : ClusterConfig).minimumServingNodes ≤
      countGE (sthsOf s1peers) s1result.treeSize ∧
    (⟨3, 3/4⟩ : ClusterConfig).minimumServingFraction *
        (s1peers.length : ℚ) ≤
      (countGE (sthsOf s1peers) s1result.treeSize : ℚ) :=
  calculate_coverage s1peers ⟨3, 3/4⟩ none none s1result (by
    norm_num [calculateServingSTH, sthsOf, bucketSizes, insertDesc, repAt,
      countEq, calcLoop, discardCandidate, currentTreeSize, defaultSth,
      s1peers, s1result, List.filterMap_cons, List.foldl_cons,
      List.foldl_nil, List.countP_cons, List.countP_nil, List.map_cons,
      List.map_nil, List.length])

/-- A lone peer whose newest STH has size 5 and timestamp 50. -/
def c3peerA : ClusterPeer :=
  ⟨"http://h1:80", ⟨"h1", 80, some ⟨0, "k", 50, 5, "a"⟩⟩⟩

/-- The same peer later advertising size 5 with timestamp 20. -/
def c3peerB : ClusterPeer :=
  ⟨"http://h1:80", ⟨"h1", 80, some ⟨0, "k", 20, 5, "b"⟩⟩⟩

/-- An actual serving STH with timestamp 10. -/
def c3actualSth : Sth := ⟨0, "k", 10, 3, "z"⟩

/-- The candidate of the first invocation (timestamp 50). -/
def c3sth50 : Sth := ⟨0, "k", 50, 5, "a"⟩

/-- The candidate of the second invocation (timestamp 20). -/
def c3sth20 : Sth := ⟨0, "k", 20, 5, "b"⟩

/-- C3 refuted as stated: two successive calculator invocations, both with
`actual_serving_sth` set (timestamp 10), where the first produces a
calculated STH of timestamp 50 and the second replaces it by one of
timestamp 20 — a strict timestamp regression of
`calculated_serving_sth`. -/
theorem calculated_ts_regresses :
    calculateServingSTH [("p1", c3peerA)] ⟨1, 1⟩ none (some c3actualSth) =
      some c3sth50 ∧
    calculateServingSTH [("p1", c3peerB)] ⟨1, 1⟩ (some c3sth50)
        (some c3actualSth) = some c3sth20 ∧
    c3sth20.timestamp < c3sth50.timestamp := by
  refine ⟨?_, ?_, by decide⟩ <;>
    norm_num [calculateServingSTH, sthsOf, bucketSizes, insertDesc, repAt,
      countEq, calcLoop, discardCandidate, currentTreeSize, defaultSth,
      c3peerA, c3peerB, c3actualSth, c3sth50, c3sth20,
      List.filterMap_cons, List.foldl_cons, List.foldl_nil,
      List.countP_cons, List.countP_nil, List.map_cons, List.map_nil,
      List.length]

theorem calculate_ts_gt_actual_witness :
    c3actualSth.timestamp < c3sth50.timestamp :=
  calculate_ts_gt_actual [("p1", c3peerA)] ⟨1, 1⟩ none c3actualSth c3sth50
    (by
      norm_num [calculateServingSTH, sthsOf, bucketSizes, insertDesc, repAt,
        countEq, calcLoop, discardCandidate, currentTreeSize, defaultSth,
        c3peerA, c3actualSth, c3sth50, List.filterMap_cons, List.foldl_cons,
        List.foldl_nil, List.countP_cons, List.countP_nil, List.map_cons,
        List.map_nil, List.length])

theorem calculate_tree_size_floor_witness :
    currentTreeSize (some c3sth50) ≤ c3sth20.treeSize :=
  calculate_tree_size_floor [("p1", c3peerB)] ⟨1, 1⟩ (some c3sth50)
    (some c3actualSth) c3sth20
    (by
      intro x hx
      simp only [sthsOf, c3peerB, List.filterMap_cons, List.filterMap_nil,
        List.mem_singleton] at hx
      subst hx
      decide)
    (by
      norm_num [calculateServingSTH, sthsOf, bucketSizes, insertDesc, repAt,
        countEq, calcLoop, discardCandidate, currentTreeSize, defaultSth,
        c3peerB, c3actualSth, c3sth50, c3sth20, List.filterMap_cons,
        List.foldl_cons, List.foldl_nil, List.countP_cons, List.countP_nil,
        List.map_cons, List.map_nil, List.length])

/-- A peer advertising an STH of size 7 with timestamp 0. -/
def c6peer : ClusterPeer :=
  ⟨"http://h1:80", ⟨"h1", 80, some ⟨0, "k", 0, 7, "a"⟩⟩⟩

/-- A current calculated serving STH of size 5. -/
def c6current : Sth := ⟨0, "k", 10, 5, "c"⟩

/-- C6 refuted as stated: with a current calculated serving STH of size 5,
a peer snapshot containing one STH of size 7 and timestamp 0 makes the
calculator select the default-constructed representative (the `>` guard
never replaces the default map entry when every bucket member has
timestamp 0), so the produced candidate has tree size 0 < 5. -/
theorem calculated_size_regresses :
    calculateServingSTH [("p1", c6peer)] ⟨0, 0⟩ (some c6current) none =
      some defaultSth ∧
    defaultSth.treeSize < c6current.treeSize := by
  refine ⟨?_, by decide⟩
  norm_num [calculateServingSTH, sthsOf, bucketSizes, insertDesc, repAt,
    countEq, calcLoop, discardCandidate, currentTreeSize, defaultSth,
    c6peer, c6current, List.filterMap_cons, List.foldl_cons, List.foldl_nil,
    List.countP_cons, List.countP_nil, List.map_cons, List.map_nil,
    List.length]

/-! Peer-registry lemmas for the endpoint-change path. -/

theorem lookupPeer_erase (ps : PeerMap) (id : String) :
    lookupPeer (erasePeer ps id) id = none := by
  induction ps with
  | nil => rfl
  | cons q rest ih =>
    obtain ⟨k, p⟩ := q
    by_cases hk : k = id
    · simpa [erasePeer, List.filter_cons, hk] using ih
    · simpa [erasePeer, List.filter_cons, hk, lookupPeer] using ih

theorem countKey_erase (ps : PeerMap) (id : String) :
    countKey (erasePeer ps id) id = 0 := by
  induction ps with
  | nil => rfl
  | cons q rest ih =>
    obtain ⟨k, p⟩ := q
    by_cases hk : k = id
    · simpa [erasePeer, List.filter_cons, hk] using ih
    · simpa [erasePeer, countKey, List.filter_cons, List.countP_cons, hk]
        using ih

theorem lookupPeer_insert_self (ps : PeerMap) (id : String) (p : ClusterPeer)
    (h : lookupPeer ps id = none) :
    lookupPeer (insertPeer id p ps) id = some p := by
  induction ps with
  | nil => simp [insertPeer, lookupPeer]
  | cons q rest ih =>
    obtain ⟨k, p0⟩ := q
    simp only [lookupPeer] at h
    by_cases hk : k = id
    · rw [if_pos hk] at h
      exact absurd h (by simp)
    · rw [if_neg hk] at h
      simp only [insertPeer]
      by_cases h1 : id < k
      · rw [if_pos h1]
        simp [lookupPeer]
      · rw [if_neg h1, if_neg (fun hh => hk hh.symm)]
        simp only [lookupPeer]
        rw [if_neg hk]
        exact ih h

theorem countKey_insert_self (ps : PeerMap) (id : String) (p : ClusterPeer)
    (h : countKey ps id = 0) :
    countKey (insertPeer id p ps) id = 1 := by
  induction ps with
  | nil => simp [insertPeer, countKey, List.countP_cons]
  | cons q rest ih =>
    obtain ⟨k, p0⟩ := q
    simp only [countKey, List.countP_cons] at h
    by_cases hk : k = id
    · subst hk
      simp at h
    · have h2 : countKey rest id = 0 := by
        rw [decide_eq_false hk] at h
        simpa [countKey] using h
      simp only [insertPeer]
      by_cases h1 : id < k
      · rw [if_pos h1]
        have h3 : List.countP (fun q => decide (q.1 = id)) rest = 0 := h2
        simp [countKey, List.countP_cons, hk, h3]
      · rw [if_neg h1, if_neg (fun hh => hk hh.symm)]
        have h4 : List.countP (fun q => decide (q.1 = id))
            (insertPeer id p rest) = 1 := ih h2
        simp [countKey, List.countP_cons, hk, h4]

/-- C9: applying an `exists` update for a node whose current Peer has a
different `(hostname, log_port)` evicts the old Peer and creates a fresh
one whose log client is bound to the update's endpoint; afterwards exactly
one Peer entry exists for that node id and it stores the update's entry. -/
theorem peer_endpoint_change_rebuilds (ps : PeerMap) (id : String)
    (e : ClusterNodeState) (p : ClusterPeer)
    (hfind : lookupPeer ps id = some p)
    (hdiff : p.getHostPort ≠ (e.hostname, e.logPort))
    (hhost : e.hostname ≠ "") (hport0 : 0 < e.logPort)
    (hport1 : e.logPort ≤ 65535) :
    applyOneUpdate ⟨id, true, e⟩ ps =
      .ok (insertPeer id ⟨mkClientUri e, e⟩ (erasePeer ps id)) ∧
    lookupPeer (insertPeer id ⟨mkClientUri e, e⟩ (erasePeer ps id)) id =
      some ⟨mkClientUri e, e⟩ ∧
    countKey (insertPeer id ⟨mkClientUri e, e⟩ (erasePeer ps id)) id = 1 := by
  have hbuild : buildAsyncLogClient e = .ok (mkClientUri e) := by
    unfold buildAsyncLogClient
    rw [if_neg hhost, if_neg (by omega), if_neg (by omega)]
  refine ⟨?_, lookupPeer_insert_self _ _ _ (lookupPeer_erase ps id),
    countKey_insert_self _ _ _ (countKey_erase ps id)⟩
  simp only [applyOneUpdate, hfind, hbuild, if_true]
  rw [if_pos hdiff]

/-- A node originally at endpoint `h1:80`. -/
def c9peerOld : ClusterPeer := ⟨"http://h1:80", ⟨"h1", 80, none⟩⟩

/-- The same node announcing endpoint `h1:81` (spec scenario S3). -/
def c9entry : ClusterNodeState := ⟨"h1", 81, none⟩

theorem peer_endpoint_change_rebuilds_witness :
    applyOneUpdate ⟨"n1", true, c9entry⟩ [("n1", c9peerOld)] =
      .ok (insertPeer "n1" ⟨mkClientUri c9entry, c9entry⟩
        (erasePeer [("n1", c9peerOld)] "n1")) ∧
    lookupPeer (insertPeer "n1" ⟨mkClientUri c9entry, c9entry⟩
        (erasePeer [("n1", c9peerOld)] "n1")) "n1" =
      some ⟨mkClientUri c9entry, c9entry⟩ ∧
    countKey (insertPeer "n1" ⟨mkClientUri c9entry, c9entry⟩
        (erasePeer [("n1", c9peerOld)] "n1")) "n1" = 1 :=
  peer_endpoint_change_rebuilds [("n1", c9peerOld)] "n1" c9entry c9peerOld
    (by decide) (by decide) (by decide) (by decide) (by decide)

/-- C7: an `exists` serving-STH update carrying timestamp 0 is ignored
completely: the controller state is unchanged, the database is neither
consulted nor written, and the election gate does not run. -/
theorem serving_sth_ts_zero_noop (s : CtrlState) (db : LookupResult)
    (writeOk : Bool) (u : Update Sth)
    (hex : u.exists_ = true) (hts : u.entry.timestamp = 0) :
    onServingSthUpdated u db writeOk s = .ok ⟨s, none, false, false⟩ := by
  simp [onServingSthUpdated, hex, hts]

theorem serving_sth_ts_zero_noop_witness :
    onServingSthUpdated ⟨"sth", true, ⟨0, "k", 0, 5, "h"⟩⟩ .notFound true
      initState = .ok ⟨initState, none, false, false⟩ :=
  serving_sth_ts_zero_noop initState .notFound true
    ⟨"sth", true, ⟨0, "k", 0, 5, "h"⟩⟩ rfl rfl

/-- C5: whenever the publisher worker wakes with `update_required_` set
and `exiting_` clear, a missing calculated STH is fatal; otherwise it
snapshots the calculated STH, clears `update_required_`, and hands exactly
that snapshot to `store.SetServingSTH` precisely when `IsMaster()`. -/
theorem publisher_iteration_spec (s : CtrlState) (isMaster : Bool)
    (hur : s.updateRequired = true) (hex : s.exiting = false) :
    (s.calculatedServingSth = none →
      clusterServingSTHUpdater isMaster s = .error ()) ∧
    (∀ c, s.calculatedServingSth = some c →
      clusterServingSTHUpdater isMaster s =
        .ok ({ s with updateRequired := false },
          if isMaster then some c else none)) := by
  constructor
  · intro hc
    simp [clusterServingSTHUpdater, hex, hur, hc]
  · intro c hc
    simp [clusterServingSTHUpdater, hex, hur, hc]

/-- A controller state with a pending update and a calculated STH. -/
def c5state : CtrlState :=
  { initState with
      calculatedServingSth := some ⟨0, "k", 7, 3, "h"⟩
      updateRequired := true }

theorem publisher_iteration_spec_witness :
    clusterServingSTHUpdater false c5state =
      .ok ({ c5state with updateRequired := false },
        if false then some ⟨0, "k", 7, 3, "h"⟩ else none) :=
  (publisher_iteration_spec c5state false rfl rfl).2 ⟨0, "k", 7, 3, "h"⟩ rfl

/-- C4: reconciliation of a serving-STH update (`exists`, nonzero
timestamp) against the local database, assuming the `key_id` and `version`
`CHECK`s pass and the database write succeeds.  When the lookup finds a
stored STH with the same timestamp, the update is fatal exactly when
`tree_size` or `sha256_root_hash` differ, and no write happens; with
differing timestamps it is fatal exactly when the update is not strictly
newer in timestamp or smaller in tree size, and otherwise the update is
written; when the lookup finds nothing the update is written. -/
theorem serving_sth_reconciliation (s : CtrlState) (u : Update Sth)
    (dbSth : Sth)
    (hex : u.exists_ = true) (hts : u.entry.timestamp ≠ 0)
    (hkey : u.entry.keyId = dbSth.keyId)
    (hver : u.entry.version = dbSth.version) :
    (dbSth.timestamp = u.entry.timestamp →
      ((onServingSthUpdated u (.ok dbSth) true s = .error ()) ↔
        ¬(u.entry.treeSize = dbSth.treeSize ∧
          u.entry.rootHash = dbSth.rootHash)) ∧
      (∀ r, onServingSthUpdated u (.ok dbSth) true s = .ok r →
        r.dbWrite = none)) ∧
    (dbSth.timestamp ≠ u.entry.timestamp →
      ((onServingSthUpdated u (.ok dbSth) true s = .error ()) ↔
        ¬(dbSth.timestamp < u.entry.timestamp ∧
          dbSth.treeSize ≤ u.entry.treeSize)) ∧
      (∀ r, onServingSthUpdated u (.ok dbSth) true s = .ok r →
        r.dbWrite = some u.entry)) ∧
    (∃ r, onServingSthUpdated u .notFound true s = .ok r ∧
      r.dbWrite = some u.entry) := by
  refine ⟨?_, ?_, ?_⟩
  · intro heq
    by_cases hsz : u.entry.treeSize = dbSth.treeSize
    · by_cases hrh : u.entry.rootHash = dbSth.rootHash
      · constructor
        · simp [onServingSthUpdated, hex, hts, hkey, hver, heq, hsz, hrh]
        · intro r hr
          simp [onServingSthUpdated, hex, hts, hkey, hver, heq, hsz, hrh]
            at hr
          rw [← hr]
      · constructor
        · simp [onServingSthUpdated, hex, hts, hkey, hver, heq, hsz, hrh]
        · intro r hr
          simp [onServingSthUpdated, hex, hts, hkey, hver, heq, hsz, hrh]
            at hr
    · constructor
      · simp [onServingSthUpdated, hex, hts, hkey, hver, heq, hsz]
      · intro r hr
        simp [onServingSthUpdated, hex, hts, hkey, hver, heq, hsz] at hr
  · intro hne
    by_cases hlt : dbSth.timestamp < u.entry.timestamp
    · by_cases hsz : dbSth.treeSize ≤ u.entry.treeSize
      · constructor
        · simp [onServingSthUpdated, hex, hts, hkey, hver, hne, hlt, hsz,
            Ne.symm hne]
        · intro r hr
          simp [onServingSthUpdated, hex, hts, hkey, hver, hne, hlt, hsz,
            Ne.symm hne] at hr
          rw [← hr]
      · constructor
        · simp [onServingSthUpdated, hex, hts, hkey, hver, hne, hlt, hsz,
            Ne.symm hne]
        · intro r hr
          simp [onServingSthUpdated, hex, hts, hkey, hver, hne, hlt, hsz,
            Ne.symm hne] at hr
    · constructor
      · simp [onServingSthUpdated, hex, hts, hkey, hver, hne, hlt,
          Ne.symm hne]
      · intro r hr
        simp [onServingSthUpdated, hex, hts, hkey, hver, hne, hlt,
          Ne.symm hne] at hr
  · refine ⟨⟨determineElectionParticipation
      { s with actualServingSth := some u.entry }, some u.entry, true, true⟩,
      ?_, rfl⟩
    simp [onServingSthUpdated, hex, hts]

/-! Frame and characterization lemmas for the controller operations. -/

theorem gate_fields (s : CtrlState) :
    (determineElectionParticipation s).localHostname = s.localHostname ∧
    (determineElectionParticipation s).localLogPort = s.localLogPort ∧
    (determineElectionParticipation s).localNewestSth = s.localNewestSth ∧
    (determineElectionParticipation s).clusterConfig = s.clusterConfig ∧
    (determineElectionParticipation s).allPeers = s.allPeers ∧
    (determineElectionParticipation s).calculatedServingSth =
      s.calculatedServingSth ∧
    (determineElectionParticipation s).actualServingSth =
      s.actualServingSth ∧
    (determineElectionParticipation s).updateRequired = s.updateRequired ∧
    (determineElectionParticipation s).exiting = s.exiting := by
  cases ha : s.actualServingSth with
  | none => simp [determineElectionParticipation, ha]
  | some a =>
    cases hn : s.localNewestSth with
    | none => simp [determineElectionParticipation, ha, hn]
    | some nst =>
      by_cases hc : nst.treeSize < a.treeSize <;>
        simp [determineElectionParticipation, ha, hn, hc]

theorem gate_election (s : CtrlState) (a : Sth)
    (ha : s.actualServingSth = some a) :
    (determineElectionParticipation s).electionRunning = true ↔
      ∃ nst, s.localNewestSth = some nst ∧ a.treeSize ≤ nst.treeSize := by
  cases hn : s.localNewestSth with
  | none => simp [determineElectionParticipation, ha, hn]
  | some nst =>
    by_cases hc : nst.treeSize < a.treeSize
    · simp only [determineElectionParticipation, ha, hn, if_pos hc]
      constructor
      · intro h
        exact absurd h (by simp)
      · rintro ⟨nst2, hn2, hle⟩
        injection hn2 with hn3
        subst hn3
        exfalso
        omega
    · simp only [determineElectionParticipation, ha, hn, if_neg hc]
      constructor
      · intro _
        exact ⟨nst, rfl, by omega⟩
      · intro _
        trivial

theorem doCalc_fields (isMaster : Bool) (s : CtrlState) :
    (doCalculateServingSTH isMaster s).localHostname = s.localHostname ∧
    (doCalculateServingSTH isMaster s).localLogPort = s.localLogPort ∧
    (doCalculateServingSTH isMaster s).localNewestSth = s.localNewestSth ∧
    (doCalculateServingSTH isMaster s).clusterConfig = s.clusterConfig ∧
    (doCalculateServingSTH isMaster s).allPeers = s.allPeers ∧
    (doCalculateServingSTH isMaster s).actualServingSth =
      s.actualServingSth ∧
    (doCalculateServingSTH isMaster s).electionRunning =
      s.electionRunning ∧
    (doCalculateServingSTH isMaster s).exiting = s.exiting := by
  unfold doCalculateServingSTH
  cases calculateServingSTH s.allPeers s.clusterConfig
      s.calculatedServingSth s.actualServingSth with
  | none => simp
  | some c => cases isMaster <;> simp

theorem doCalc_ur_calc (isMaster : Bool) (s : CtrlState)
    (h : s.updateRequired = true → ∃ c, s.calculatedServingSth = some c) :
    (doCalculateServingSTH isMaster s).updateRequired = true →
      ∃ c, (doCalculateServingSTH isMaster s).calculatedServingSth =
        some c := by
  unfold doCalculateServingSTH
  cases calculateServingSTH s.allPeers s.clusterConfig
      s.calculatedServingSth s.actualServingSth with
  | none => exact h
  | some c =>
    cases isMaster <;> simp

theorem newTreeHead_ok (sth : Sth) (s s2 : CtrlState)
    (h : newTreeHead sth s = .ok s2) :
    s2 = determineElectionParticipation
      { s with localNewestSth := some sth } ∧
    (∀ old, s.localNewestSth = some old →
      old.timestamp ≤ sth.timestamp) := by
  unfold newTreeHead pushLocalNodeState at h
  split at h
  · rename_i old heq
    split at h
    · exact absurd h (by simp)
    · rename_i hts
      injection h with h2
      refine ⟨h2.symm, ?_⟩
      intro old2 hold2
      rw [heq] at hold2
      injection hold2 with h3
      subst h3
      omega
  · rename_i heq
    injection h with h2
    refine ⟨h2.symm, ?_⟩
    intro old hold
    rw [heq] at hold
    exact absurd hold (by simp)

theorem newTreeHead_error_iff (sth : Sth) (s : CtrlState) :
    newTreeHead sth s = .error () ↔
      ∃ old, s.localNewestSth = some old ∧
        sth.timestamp < old.timestamp := by
  unfold newTreeHead pushLocalNodeState
  split
  · rename_i old heq
    split
    · rename_i hts
      simp [heq, hts]
    · rename_i hts
      simp [heq, hts]
  · rename_i heq
    simp [heq]

theorem onClusterStateUpdated_ok (updates : List (Update ClusterNodeState))
    (isMaster : Bool) (s s2 : CtrlState)
    (h : onClusterStateUpdated updates isMaster s = .ok s2) :
    ∃ ps, s2 = doCalculateServingSTH isMaster { s with allPeers := ps } := by
  unfold onClusterStateUpdated at h
  split at h
  · exact absurd h (by simp)
  · injection h with h2
    exact ⟨_, h2.symm⟩

theorem onClusterConfigUpdated_ok (u : Update ClusterConfig)
    (isMaster : Bool) (s s2 : CtrlState)
    (h : onClusterConfigUpdated u isMaster s = .ok s2) :
    s2 = s ∨
    s2 = doCalculateServingSTH isMaster
      { s with clusterConfig := u.entry } := by
  unfold onClusterConfigUpdated at h
  by_cases hex : u.exists_
  · rw [if_pos hex] at h
    injection h with h2
    exact Or.inr h2.symm
  · rw [if_neg hex] at h
    injection h with h2
    exact Or.inl h2.symm

theorem onServingSthUpdated_state (u : Update Sth) (db : LookupResult)
    (writeOk : Bool) (s : CtrlState) (r : SthUpdateResult)
    (h : onServingSthUpdated u db writeOk s = .ok r) :
    r.state = s ∨
    r.state = determineElectionParticipation
      { s with actualServingSth := none } ∨
    r.state = determineElectionParticipation
      { s with actualServingSth := some u.entry } := by
  simp only [onServingSthUpdated] at h
  split at h
  · split at h
    · injection h with h2
      left
      rw [← h2]
    · split at h
      · split at h
        · exact absurd h (by simp)
        · split at h
          · exact absurd h (by simp)
          · split at h
            · split at h
              · exact absurd h (by simp)
              · split at h
                · exact absurd h (by simp)
                · injection h with h2
                  right; right
                  rw [← h2]
            · split at h
              · exact absurd h (by simp)
              · split at h
                · exact absurd h (by simp)
                · split at h
                  · injection h with h2
                    right; right
                    rw [← h2]
                  · exact absurd h (by simp)
      · split at h
        · injection h with h2
          right; right
          rw [← h2]
        · exact absurd h (by simp)
      · exact absurd h (by simp)
  · injection h with h2
    right; left
    rw [← h2]

theorem clusterServingSTHUpdater_state (isMaster : Bool) (s s2 : CtrlState)
    (pub : Option Sth)
    (h : clusterServingSTHUpdater isMaster s = .ok (s2, pub)) :
    s2 = s ∨ s2 = { s with updateRequired := false } := by
  unfold clusterServingSTHUpdater at h
  by_cases hex : s.exiting = true
  · rw [if_pos hex] at h
    injection h with h2
    exact Or.inl (congrArg Prod.fst h2).symm
  · rw [if_neg hex] at h
    by_cases hur : s.updateRequired = true
    · rw [if_pos hur] at h
      split at h
      · exact absurd h (by simp)
      · injection h with h2
        exact Or.inr (congrArg Prod.fst h2).symm
    · rw [if_neg hur] at h
      injection h with h2
      exact Or.inl (congrArg Prod.fst h2).symm

theorem publisherStep_state (isMaster : Bool) (s s2 : CtrlState)
    (h : controllerStep (.publisherWake isMaster) s = .ok s2) :
    s2 = s ∨ s2 = { s with updateRequired := false } := by
  simp only [controllerStep] at h
  split at h
  · exact absurd h (by simp)
  · rename_i res s3 pub heq
    injection h with h2
    subst h2
    exact clusterServingSTHUpdater_state isMaster s s3 pub heq

/-- The election-eligibility invariant: whenever `actual_serving_sth` is
present, the election is running exactly when the local node has a newest
STH at least as large. -/
def ElectionInv (s : CtrlState) : Prop :=
  ∀ a, s.actualServingSth = some a →
    (s.electionRunning = true ↔
      ∃ nst, s.localNewestSth = some nst ∧ a.treeSize ≤ nst.treeSize)

theorem electionInv_transport (s s2 : CtrlState)
    (h1 : s2.actualServingSth = s.actualServingSth)
    (h2 : s2.localNewestSth = s.localNewestSth)
    (h3 : s2.electionRunning = s.electionRunning)
    (h : ElectionInv s) : ElectionInv s2 := by
  intro a ha
  rw [h1] at ha
  rw [h2, h3]
  exact h a ha

theorem electionInv_gate (s : CtrlState) :
    ElectionInv (determineElectionParticipation s) := by
  intro a ha
  have hf := gate_fields s
  rw [hf.2.2.2.2.2.2.1] at ha
  rw [hf.2.2.1]
  exact gate_election s a ha

theorem electionInv_step (op : OpInput) (s s2 : CtrlState)
    (h : ElectionInv s) (hs : controllerStep op s = .ok s2) :
    ElectionInv s2 := by
  cases op with
  | newTreeHead sth =>
    obtain ⟨h2, _⟩ := newTreeHead_ok sth s s2 hs
    rw [h2]
    exact electionInv_gate _
  | setNodeHostPort host port =>
    have h2 : s2 = determineElectionParticipation
        { s with localHostname := host, localLogPort := port } := by
      simp only [controllerStep, setNodeHostPort, pushLocalNodeState] at hs
      injection hs with h3
      exact h3.symm
    rw [h2]
    exact electionInv_gate _
  | clusterStateUpdated updates isMaster =>
    obtain ⟨ps, h2⟩ := onClusterStateUpdated_ok updates isMaster s s2 hs
    subst h2
    have hf := doCalc_fields isMaster { s with allPeers := ps }
    exact electionInv_transport _ _ (by rw [hf.2.2.2.2.2.1])
      (by rw [hf.2.2.1]) (by rw [hf.2.2.2.2.2.2.1]) h
  | clusterConfigUpdated u isMaster =>
    rcases onClusterConfigUpdated_ok u isMaster s s2 hs with h2 | h2
    · subst h2
      exact h
    · subst h2
      have hf := doCalc_fields isMaster { s with clusterConfig := u.entry }
      exact electionInv_transport _ _ (by rw [hf.2.2.2.2.2.1])
        (by rw [hf.2.2.1]) (by rw [hf.2.2.2.2.2.2.1]) h
  | servingSthUpdated u db writeOk =>
    simp only [controllerStep] at hs
    split at hs
    · exact absurd hs (by simp)
    · rename_i res r heq
      injection hs with h2
      subst h2
      rcases onServingSthUpdated_state u db writeOk s r heq with h3 | h3 | h3
      · rw [h3]
        exact h
      · rw [h3]
        exact electionInv_gate _
      · rw [h3]
        exact electionInv_gate _
  | publisherWake isMaster =>
    rcases publisherStep_state isMaster s s2 hs with h2 | h2
    · subst h2
      exact h
    · subst h2
      exact electionInv_transport _ _ rfl rfl rfl h
  | beginExit =>
    simp only [controllerStep] at hs
    injection hs with h2
    subst h2
    exact electionInv_transport _ _ rfl rfl rfl h

theorem reachable_electionInv (s : CtrlState) (hs : Reachable s) :
    ElectionInv s := by
  induction hs with
  | init =>
    intro a ha
    simp [initState] at ha
  | step op s0 s3 h0 hstep ih => exact electionInv_step op s0 s3 ih hstep

/-- C2 (amended): in every reachable controller state in which
`actual_serving_sth` is present, the election is running iff the local
node has a newest STH whose tree size is at least the actual serving
STH's.  (When `actual_serving_sth` is absent the gate leaves the election
untouched, so no biconditional holds there.) -/
theorem election_iff_of_actual (s : CtrlState) (hs : Reachable s) (a : Sth)
    (ha : s.actualServingSth = some a) :
    s.electionRunning = true ↔
      ∃ nst, s.localNewestSth = some nst ∧ a.treeSize ≤ nst.treeSize :=
  reachable_electionInv s hs a ha

/-- The STH used in the election traces: timestamp 1, tree size 0. -/
def c2sth : Sth := ⟨0, "k", 1, 0, "h"⟩

/-- After a serving-STH update on a fresh controller. -/
def c2s1 : CtrlState := { initState with actualServingSth := some c2sth }

/-- After `NewTreeHead` catches the local node up: in the election. -/
def c2s2 : CtrlState :=
  { c2s1 with localNewestSth := some c2sth, electionRunning := true }

/-- After the serving STH is deleted from the store: the gate returns
without stopping the election. -/
def c2s3 : CtrlState := { c2s2 with actualServingSth := none }

/-- C2 refuted as stated: a reachable state (serving-STH update, then
`NewTreeHead`, then serving-STH deletion) in which the election is still
running although `actual_serving_sth` is absent — the gate's
no-actual-serving-STH branch only logs a warning and does not call
`StopElection`. -/
theorem election_running_without_actual :
    Reachable c2s3 ∧ c2s3.electionRunning = true ∧
    c2s3.actualServingSth = none := by
  refine ⟨?_, rfl, rfl⟩
  have h1 : controllerStep
      (.servingSthUpdated ⟨"sth", true, c2sth⟩ .notFound true) initState =
      .ok c2s1 := by rfl
  have h2 : controllerStep (.newTreeHead c2sth) c2s1 = .ok c2s2 := by rfl
  have h3 : controllerStep
      (.servingSthUpdated ⟨"sth", false, c2sth⟩ .notFound true) c2s2 =
      .ok c2s3 := by rfl
  exact Reachable.step _ c2s2 c2s3
    (Reachable.step _ c2s1 c2s2
      (Reachable.step _ initState c2s1 Reachable.init h1) h2) h3

/-- A reachable state with an actual serving STH present. -/
def c2wState : CtrlState := { initState with actualServingSth := some c2sth }

theorem election_iff_of_actual_witness :
    c2wState.electionRunning = true ↔
      ∃ nst, c2wState.localNewestSth = some nst ∧
        c2sth.treeSize ≤ nst.treeSize :=
  election_iff_of_actual c2wState
    (Reachable.step (.servingSthUpdated ⟨"sth", true, c2sth⟩ .notFound true)
      initState c2wState Reachable.init (by rfl)) c2sth rfl

/-- Effect of any single operation on `local_node_state.newest_sth`:
`NewTreeHead` stores its argument (having checked it does not regress);
every other operation leaves the field untouched. -/
theorem step_newest (op : OpInput) (s s2 : CtrlState)
    (h : controllerStep op s = .ok s2) :
    (∃ sth, op = .newTreeHead sth ∧ s2.localNewestSth = some sth ∧
      (∀ old, s.localNewestSth = some old →
        old.timestamp ≤ sth.timestamp)) ∨
    s2.localNewestSth = s.localNewestSth := by
  cases op with
  | newTreeHead sth =>
    obtain ⟨h2, h3⟩ := newTreeHead_ok sth s s2 h
    left
    refine ⟨sth, rfl, ?_, h3⟩
    rw [h2]
    exact (gate_fields _).2.2.1
  | setNodeHostPort host port =>
    right
    have h2 : s2 = determineElectionParticipation
        { s with localHostname := host, localLogPort := port } := by
      simp only [controllerStep, setNodeHostPort, pushLocalNodeState] at h
      injection h with h3
      exact h3.symm
    rw [h2]
    exact (gate_fields _).2.2.1
  | clusterStateUpdated updates isMaster =>
    right
    obtain ⟨ps, h2⟩ := onClusterStateUpdated_ok updates isMaster s s2 h
    rw [h2]
    exact (doCalc_fields _ _).2.2.1
  | clusterConfigUpdated u isMaster =>
    right
    rcases onClusterConfigUpdated_ok u isMaster s s2 h with h2 | h2
    · rw [h2]
    · rw [h2]
      exact (doCalc_fields _ _).2.2.1
  | servingSthUpdated u db writeOk =>
    right
    simp only [controllerStep] at h
    split at h
    · exact absurd h (by simp)
    · rename_i res r heq
      injection h with h2
      subst h2
      rcases onServingSthUpdated_state u db writeOk s r heq with h3 | h3 | h3
      · rw [h3]
      · rw [h3]
        exact (gate_fields _).2.2.1
      · rw [h3]
        exact (gate_fields _).2.2.1
  | publisherWake isMaster =>
    right
    rcases publisherStep_state isMaster s s2 h with h2 | h2 <;> rw [h2]
  | beginExit =>
    right
    simp only [controllerStep] at h
    injection h with h2
    subst h2
    rfl

/-- C8: `local_node_state.newest_sth.timestamp` never decreases across any
controller operation; `NewTreeHead` is fatal exactly when its argument's
timestamp is below the stored newest STH's, otherwise it stores its
argument; and no operation other than `NewTreeHead` modifies
`newest_sth`. -/
theorem newest_sth_monotone :
    (∀ op s s2, controllerStep op s = Except.ok s2 →
      ∀ nst, s.localNewestSth = some nst →
        ∃ nst2, s2.localNewestSth = some nst2 ∧
          nst.timestamp ≤ nst2.timestamp) ∧
    (∀ sth s, newTreeHead sth s = Except.error () ↔
      ∃ old, s.localNewestSth = some old ∧
        sth.timestamp < old.timestamp) ∧
    (∀ sth s s2, newTreeHead sth s = Except.ok s2 →
      s2.localNewestSth = some sth) ∧
    (∀ op s s2, (∀ sth, op ≠ OpInput.newTreeHead sth) →
      controllerStep op s = Except.ok s2 →
      s2.localNewestSth = s.localNewestSth) := by
  refine ⟨?_, newTreeHead_error_iff, ?_, ?_⟩
  · intro op s s2 h nst hnst
    rcases step_newest op s s2 h with ⟨sth, _, h2, h3⟩ | h2
    · exact ⟨sth, h2, h3 nst hnst⟩
    · exact ⟨nst, by rw [h2, hnst], Nat.le_refl _⟩
  · intro sth s s2 h
    obtain ⟨h2, _⟩ := newTreeHead_ok sth s s2 h
    rw [h2]
    exact (gate_fields _).2.2.1
  · intro op s s2 hop h
    rcases step_newest op s s2 h with ⟨sth, heq, _, _⟩ | h2
    · exact absurd heq (hop sth)
    · exact h2

theorem newest_sth_monotone_witness :
    ∃ nst2, c2s2.localNewestSth = some nst2 ∧
      c2sth.timestamp ≤ nst2.timestamp :=
  newest_sth_monotone.1 (.newTreeHead c2sth) c2s2 c2s2 (by rfl) c2sth rfl

/-- The publisher-safety invariant: a raised `update_required_` implies a
present `calculated_serving_sth_`. -/
def CalcInv (s : CtrlState) : Prop :=
  s.updateRequired = true → ∃ c, s.calculatedServingSth = some c

theorem calcInv_transport (s s2 : CtrlState)
    (h1 : s2.updateRequired = s.updateRequired)
    (h2 : s2.calculatedServingSth = s.calculatedServingSth)
    (h : CalcInv s) : CalcInv s2 := by
  intro hur
  rw [h2]
  rw [h1] at hur
  exact h hur

theorem calcInv_step (op : OpInput) (s s2 : CtrlState)
    (h : CalcInv s) (hs : controllerStep op s = .ok s2) : CalcInv s2 := by
  cases op with
  | newTreeHead sth =>
    obtain ⟨h2, _⟩ := newTreeHead_ok sth s s2 hs
    rw [h2]
    exact calcInv_transport _ _ (gate_fields _).2.2.2.2.2.2.2.1
      (gate_fields _).2.2.2.2.2.1 h
  | setNodeHostPort host port =>
    have h2 : s2 = determineElectionParticipation
        { s with localHostname := host, localLogPort := port } := by
      simp only [controllerStep, setNodeHostPort, pushLocalNodeState] at hs
      injection hs with h3
      exact h3.symm
    rw [h2]
    exact calcInv_transport _ _ (gate_fields _).2.2.2.2.2.2.2.1
      (gate_fields _).2.2.2.2.2.1 h
  | clusterStateUpdated updates isMaster =>
    obtain ⟨ps, h2⟩ := onClusterStateUpdated_ok updates isMaster s s2 hs
    rw [h2]
    exact doCalc_ur_calc isMaster { s with allPeers := ps } h
  | clusterConfigUpdated u isMaster =>
    rcases onClusterConfigUpdated_ok u isMaster s s2 hs with h2 | h2
    · rw [h2]
      exact h
    · rw [h2]
      exact doCalc_ur_calc isMaster { s with clusterConfig := u.entry } h
  | servingSthUpdated u db writeOk =>
    simp only [controllerStep] at hs
    split at hs
    · exact absurd hs (by simp)
    · rename_i res r heq
      injection hs with h2
      subst h2
      rcases onServingSthUpdated_state u db writeOk s r heq with h3 | h3 | h3
      · rw [h3]
        exact h
      · rw [h3]
        exact calcInv_transport _ _ (gate_fields _).2.2.2.2.2.2.2.1
          (gate_fields _).2.2.2.2.2.1 h
      · rw [h3]
        exact calcInv_transport _ _ (gate_fields _).2.2.2.2.2.2.2.1
          (gate_fields _).2.2.2.2.2.1 h
  | publisherWake isMaster =>
    rcases publisherStep_state isMaster s s2 hs with h2 | h2
    · rw [h2]
      exact h
    · rw [h2]
      intro hur
      exact absurd hur (by simp)
  | beginExit =>
    simp only [controllerStep] at hs
    injection hs with h2
    subst h2
    exact calcInv_transport _ _ rfl rfl h

theorem reachable_calcInv (s : CtrlState) (hs : Reachable s) : CalcInv s := by
  induction hs with
  | init =>
    intro hur
    exact absurd hur (by simp [initState])
  | step op s0 s3 h0 hstep ih => exact calcInv_step op s0 s3 ih hstep

/-- C10: in every reachable state a raised `update_required_` comes with a
present `calculated_serving_sth_`, so the publisher worker's
`CHECK_NOTNULL(calculated_serving_sth_)` can never fail. -/
theorem update_required_implies_calculated (s : CtrlState)
    (hs : Reachable s) :
    (s.updateRequired = true → ∃ c, s.calculatedServingSth = some c) ∧
    (∀ isMaster, clusterServingSTHUpdater isMaster s ≠ Except.error ()) := by
  have hinv : CalcInv s := reachable_calcInv s hs
  refine ⟨hinv, ?_⟩
  intro isMaster
  unfold clusterServingSTHUpdater
  by_cases hex : s.exiting = true
  · rw [if_pos hex]
    simp
  · rw [if_neg hex]
    by_cases hur : s.updateRequired = true
    · rw [if_pos hur]
      obtain ⟨c, hc⟩ := hinv hur
      rw [hc]
      simp
    · rw [if_neg hur]
      simp

theorem update_required_implies_calculated_witness :
    (c2s1.updateRequired = true →
      ∃ c, c2s1.calculatedServingSth = some c) ∧
    (∀ isMaster, clusterServingSTHUpdater isMaster c2s1 ≠
      Except.error ()) :=
  update_required_implies_calculated c2s1
    (Reachable.step (.servingSthUpdated ⟨"sth", true, c2sth⟩ .notFound true)
      initState c2s1 Reachable.init (by rfl))

/-- Spec scenario S4: the store delivers `(ts=150, size=7)` while the
database holds `(ts=100, size=5)` for the same `key_id`/`version`. -/
def c4update : Update Sth := ⟨"sth", true, ⟨0, "kid", 150, 7, "h2"⟩⟩

/-- The database's stored latest tree head in scenario S4. -/
def c4db : Sth := ⟨0, "kid", 100, 5, "h1"⟩

theorem serving_sth_reconciliation_witness :
    (onServingSthUpdated c4update (.ok c4db) true initState =
      Except.error ()) ↔
      ¬(c4db.timestamp < c4update.entry.timestamp ∧
        c4db.treeSize ≤ c4update.entry.treeSize) :=
  ((serving_sth_reconciliation initState c4update c4db rfl (by decide)
    rfl rfl).2.1 (by decide)).1
